import Mathlib

/- Shallow embedding of the noex-client-python connection layer:
   request/response correlation (protocol/request_manager.py), push routing
   (protocol/push_router.py), subscription lifecycle
   (subscription/subscription_manager.py), reconnect backoff
   (transport/reconnect.py) and the connection orchestrator (client.py),
   together with proofs about the specified behaviour. -/

set_option maxHeartbeats 1000000

/-- JSON-like values as produced by json.loads. Arrays, objects and
non-integer numbers are only passed through opaquely by the connection
layer, so they are abstracted by the `other` constructor (tagged so that
distinct opaque values stay distinct). -/
inductive JVal where
  | null
  | bool (b : Bool)
  | int (n : Int)
  | str (s : String)
  | other (tag : Nat)
deriving DecidableEq

/-- Python isinstance(x, int) together with the integer value of x:
in Python, bool is a subclass of int, True == 1 and False == 0, including
when used as dict keys. Returns none exactly when isinstance(x, int) is
False. -/
def JVal.asPyInt : JVal → Option Int
  | .int n => some n
  | .bool b => some (if b then 1 else 0)
  | _ => none

/-- Python isinstance(x, str) together with the string value. -/
def JVal.asStr : JVal → Option String
  | .str s => some s
  | _ => none

/-- A Python dict snapshot, modelled as an insertion-ordered association
list with unique keys maintained by the operations below. -/
abbrev PyDict (κ α : Type) := List (κ × α)

/-- Python d.get(key) / d[key] lookup. -/
def dictLookup {κ α : Type} [DecidableEq κ] : PyDict κ α → κ → Option α
  | [], _ => none
  | (k, v) :: rest, key => if k = key then some v else dictLookup rest key

/-- Python d[key] = v: updates the binding in place when the key is
present (keeping insertion order), otherwise appends it at the end. -/
def dictInsert {κ α : Type} [DecidableEq κ] : PyDict κ α → κ → α → PyDict κ α
  | [], key, v => [(key, v)]
  | (k, w) :: rest, key, v =>
      if k = key then (key, v) :: rest else (k, w) :: dictInsert rest key v

/-- Python del d[key] / d.pop(key, None): removes the binding at the key
(all of them, which coincides on unique-key dicts), keeping the order of
the remaining bindings. -/
def dictRemove {κ α : Type} [DecidableEq κ] : PyDict κ α → κ → PyDict κ α
  | [], _ => []
  | (k, v) :: rest, key =>
      if k = key then dictRemove rest key else (k, v) :: dictRemove rest key

/-- The keys of a dict, in insertion order. -/
def dictKeys {κ α : Type} (l : PyDict κ α) : List κ := l.map Prod.fst

theorem dictLookup_insert {κ α : Type} [DecidableEq κ]
    (l : PyDict κ α) (k key : κ) (v : α) :
    dictLookup (dictInsert l k v) key =
      if k = key then some v else dictLookup l key := by
  induction l with
  | nil => simp [dictInsert, dictLookup]
  | cons hd tl ih =>
    obtain ⟨k0, v0⟩ := hd
    by_cases h0 : k0 = k
    · subst h0
      by_cases h1 : k0 = key <;> simp [dictInsert, dictLookup, h1]
    · by_cases h1 : k0 = key
      · subst h1
        simp [dictInsert, dictLookup, h0, Ne.symm h0]
      · simp [dictInsert, dictLookup, h0, h1, ih]

theorem dictLookup_remove {κ α : Type} [DecidableEq κ]
    (l : PyDict κ α) (k key : κ) :
    dictLookup (dictRemove l k) key =
      if k = key then none else dictLookup l key := by
  induction l with
  | nil => simp [dictRemove, dictLookup]
  | cons hd tl ih =>
    obtain ⟨k0, v0⟩ := hd
    by_cases h0 : k0 = k
    · subst h0
      by_cases h1 : k0 = key
      · subst h1; simpa [dictRemove, dictLookup] using ih
      · simp [dictRemove, dictLookup, h1, ih]
    · by_cases h1 : k0 = key
      · subst h1
        simp [dictRemove, dictLookup, h0, Ne.symm h0]
      · simp [dictRemove, dictLookup, h0, h1, ih]

theorem dictRemove_of_lookup_none {κ α : Type} [DecidableEq κ]
    (l : PyDict κ α) (k : κ) (h : dictLookup l k = none) :
    dictRemove l k = l := by
  induction l with
  | nil => rfl
  | cons hd tl ih =>
    obtain ⟨k0, v0⟩ := hd
    by_cases h0 : k0 = k
    · simp [dictLookup, h0] at h
    · simp [dictLookup, h0] at h
      simp [dictRemove, h0, ih h]

theorem dictInsert_of_lookup_none {κ α : Type} [DecidableEq κ]
    (l : PyDict κ α) (k : κ) (v : α) (h : dictLookup l k = none) :
    dictInsert l k v = l ++ [(k, v)] := by
  induction l with
  | nil => rfl
  | cons hd tl ih =>
    obtain ⟨k0, v0⟩ := hd
    by_cases h0 : k0 = k
    · simp [dictLookup, h0] at h
    · simp [dictLookup, h0] at h
      simp [dictInsert, h0, ih h]

theorem dictLookup_eq_none_of_not_mem_keys {κ α : Type} [DecidableEq κ]
    (l : PyDict κ α) (k : κ) (h : k ∉ dictKeys l) :
    dictLookup l k = none := by
  induction l with
  | nil => rfl
  | cons hd tl ih =>
    obtain ⟨k0, v0⟩ := hd
    simp [dictKeys] at h
    simp [dictLookup, Ne.symm h.1, ih, h.2, dictKeys]

theorem mem_keys_of_lookup_isSome {κ α : Type} [DecidableEq κ]
    (l : PyDict κ α) (k : κ) (h : (dictLookup l k).isSome) :
    k ∈ dictKeys l := by
  by_contra hk
  rw [dictLookup_eq_none_of_not_mem_keys l k hk] at h
  simp at h

/-- A decoded JSON message (a Python dict produced by json.loads). -/
abbrev Msg := PyDict String JVal

/-- Python msg.get(key): none models the Python value None for an absent
key. -/
def Msg.get (m : Msg) (k : String) : Option JVal := dictLookup m k

/- ══════════════ transport/reconnect.py : ReconnectStrategy ══════════════ -/

/-- ReconnectOptions from config.py. max_retries is a Python float whose
default is float("inf"), modelled by WithTop ℚ; the delay fields are
numbers, modelled by ℚ (every computation the claims touch is exact in
IEEE doubles for these magnitudes). -/
structure ReconnectOptions where
  max_retries : WithTop ℚ
  initial_delay_ms : ℚ
  max_delay_ms : ℚ
  backoff_multiplier : ℚ
  jitter_ms : ℚ

/-- The defaults declared in config.py. -/
def ReconnectOptions.default : ReconnectOptions :=
  { max_retries := ⊤
    initial_delay_ms := 1000
    max_delay_ms := 30000
    backoff_multiplier := 2
    jitter_ms := 500 }

/-- ReconnectStrategy copies the option fields at construction. -/
structure ReconnectStrategy where
  max_retries : WithTop ℚ
  initial_delay_ms : ℚ
  max_delay_ms : ℚ
  backoff_multiplier : ℚ
  jitter_ms : ℚ

def ReconnectStrategy.ofOptions (o : ReconnectOptions) : ReconnectStrategy :=
  { max_retries := o.max_retries
    initial_delay_ms := o.initial_delay_ms
    max_delay_ms := o.max_delay_ms
    backoff_multiplier := o.backoff_multiplier
    jitter_ms := o.jitter_ms }

/-- ReconnectStrategy.get_delay from transport/reconnect.py. The outcome
of random.random() is passed in explicitly as r (a value in [0,1)); the
source computes jitter = random.random() * jitter_ms. -/
def ReconnectStrategy.get_delay (s : ReconnectStrategy) (attempt : ℕ) (r : ℚ) :
    Option ℚ :=
  if s.max_retries ≤ ((attempt : ℚ) : WithTop ℚ) then none
  else
    let base := s.initial_delay_ms * s.backoff_multiplier ^ attempt
    let capped := min base s.max_delay_ms
    let jitter := r * s.jitter_ms
    some (capped + jitter)

/-- The strategy built from ReconnectOptions(initial_delay_ms=100,
backoff_multiplier=2.0, max_delay_ms=100000, jitter_ms=0), as in the
exponential-backoff unit test. -/
def backoffTestStrategy : ReconnectStrategy :=
  ReconnectStrategy.ofOptions
    { ReconnectOptions.default with
        initial_delay_ms := 100
        max_delay_ms := 100000
        backoff_multiplier := 2
        jitter_ms := 0 }

/-- The strategy built from ReconnectOptions(max_retries=3, jitter_ms=0),
other fields default. -/
def maxRetriesTestStrategy : ReconnectStrategy :=
  ReconnectStrategy.ofOptions
    { ReconnectOptions.default with
        max_retries := ((3 : ℚ) : WithTop ℚ)
        jitter_ms := 0 }

/-- C5: get_delay attempt returns none exactly when attempt has reached
max_retries; otherwise it returns min(initial_delay * multiplier ^ attempt,
max_delay) plus a jitter j = r * jitter_ms with r in [0,1), so that j lies
in [0, jitter_ms) whenever jitter_ms is positive and j = 0 when jitter_ms
is 0. In particular, with multiplier 2, initial delay 100, jitter 0 and
cap 100000 the delays for attempts 0..3 are exactly 100, 200, 400, 800,
and with max_retries = 3 the call get_delay 3 returns none. -/
theorem C5_get_delay_spec (s : ReconnectStrategy) (attempt : ℕ) (r : ℚ)
    (hr0 : 0 ≤ r) (hr1 : r < 1) (hj : 0 ≤ s.jitter_ms) :
    (s.get_delay attempt r = none ↔
        s.max_retries ≤ ((attempt : ℚ) : WithTop ℚ))
    ∧ (∀ d, s.get_delay attempt r = some d →
        ∃ j, d = min (s.initial_delay_ms * s.backoff_multiplier ^ attempt)
                s.max_delay_ms + j
          ∧ 0 ≤ j ∧ (0 < s.jitter_ms → j < s.jitter_ms)
          ∧ (s.jitter_ms = 0 → j = 0))
    ∧ (backoffTestStrategy.get_delay 0 0 = some 100
        ∧ backoffTestStrategy.get_delay 1 0 = some 200
        ∧ backoffTestStrategy.get_delay 2 0 = some 400
        ∧ backoffTestStrategy.get_delay 3 0 = some 800)
    ∧ maxRetriesTestStrategy.get_delay 3 r = none := by
  refine ⟨?_, ?_, ?_, ?_⟩
  · unfold ReconnectStrategy.get_delay
    by_cases hc : s.max_retries ≤ ((attempt : ℚ) : WithTop ℚ)
    · simp only [if_pos hc]
      exact iff_of_true (by simp) hc
    · simp only [if_neg hc]
      exact iff_of_false (by simp) hc
  · intro d hd
    unfold ReconnectStrategy.get_delay at hd
    split at hd
    · exact absurd hd (by simp)
    · refine ⟨r * s.jitter_ms, by simpa using hd.symm, mul_nonneg hr0 hj,
        fun hpos => mul_lt_of_lt_one_left hpos hr1, fun hz => by simp [hz]⟩
  · refine ⟨?_, ?_, ?_, ?_⟩ <;>
      norm_num [backoffTestStrategy, ReconnectStrategy.get_delay,
        ReconnectStrategy.ofOptions, ReconnectOptions.default, top_le_iff,
        min_def]
  · unfold ReconnectStrategy.get_delay
    rw [if_pos]
    show ((3 : ℚ) : WithTop ℚ) ≤ (((3 : ℕ) : ℚ) : WithTop ℚ)
    norm_num

/-- Witness for C5 at a concrete input. -/
theorem C5_get_delay_spec_witness :
    backoffTestStrategy.get_delay 1 0 = some 200 :=
  (C5_get_delay_spec backoffTestStrategy 1 0 (by norm_num) (by norm_num)
    (by norm_num [backoffTestStrategy, ReconnectStrategy.ofOptions,
      ReconnectOptions.default])).2.2.1.2.1

/- ══════════════ protocol/push_router.py : PushRouter ══════════════ -/

/-- Helper relating the Python isinstance(x, str) view of an optional
field with the raw field value. -/
theorem bind_asStr_eq_some (o : Option JVal) (s : String) :
    o.bind JVal.asStr = some s ↔ o = some (.str s) := by
  cases o with
  | none => simp
  | some v => cases v <;> simp [JVal.asStr]

/-- PushRouter.handle_message from protocol/push_router.py. The return
value some (sid, ch, data) models returning True after invoking the
registered push handler exactly once with those arguments; none models
returning False with no handler invocation. An absent data field reads
as the Python value None, modelled as JVal.null. -/
def PushRouter.handle_message (msg : Msg) : Option (String × String × JVal) :=
  if msg.get "type" ≠ some (.str "push") then none
  else
    match (msg.get "subscriptionId").bind JVal.asStr,
          (msg.get "channel").bind JVal.asStr with
    | some sid, some ch => some (sid, ch, (msg.get "data").getD .null)
    | _, _ => none

/-- C7: PushRouter.handle_message reports True and dispatches to the push
handler exactly once with (subscriptionId, channel, data) precisely when
the message type field is the string "push" and both subscriptionId and
channel are present as strings; in every other case it reports False with
no dispatch. -/
theorem C7_push_router_handle_message (msg : Msg) :
    (∀ sid ch d, PushRouter.handle_message msg = some (sid, ch, d) ↔
      (msg.get "type" = some (.str "push")
        ∧ msg.get "subscriptionId" = some (.str sid)
        ∧ msg.get "channel" = some (.str ch)
        ∧ d = (msg.get "data").getD .null))
    ∧ (PushRouter.handle_message msg = none ↔
        ¬ (msg.get "type" = some (.str "push")
            ∧ (∃ sid, msg.get "subscriptionId" = some (.str sid))
            ∧ (∃ ch, msg.get "channel" = some (.str ch)))) := by
  unfold PushRouter.handle_message
  by_cases ht : msg.get "type" = some (.str "push")
  · rw [if_neg (by simp [ht])]
    rcases hs : (msg.get "subscriptionId").bind JVal.asStr with _ | sid0 <;>
      rcases hc : (msg.get "channel").bind JVal.asStr with _ | ch0 <;>
      constructor <;>
      simp [ht, ← bind_asStr_eq_some, hs, hc, eq_comm]
  · rw [if_pos ht]
    constructor
    · intro sid ch d
      simp [ht]
    · simp [ht]

/-- Witness for C7 at a concrete push message. -/
theorem C7_push_router_handle_message_witness :
    PushRouter.handle_message
      [("type", .str "push"), ("subscriptionId", .str "sub_1"),
       ("channel", .str "subscription"), ("data", .int 5)] =
      some ("sub_1", "subscription", .int 5) :=
  ((C7_push_router_handle_message
      [("type", .str "push"), ("subscriptionId", .str "sub_1"),
       ("channel", .str "subscription"), ("data", .int 5)]).1
    "sub_1" "subscription" (.int 5)).mpr (by decide)

/- ══════ subscription/subscription_manager.py : SubscriptionManager ══════ -/

/-- ResubscribeInfo from subscription_manager.py. -/
structure ResubscribeInfo where
  type : String
  payload : Msg
deriving DecidableEq

/-- SubscriptionEntry from subscription_manager.py. The Python callback
object is identified by an opaque tag; its behaviour is supplied
separately where needed. -/
structure SubscriptionEntry where
  id : String
  channel : String
  callback : Nat
  resubscribe : ResubscribeInfo
deriving DecidableEq

/-- The subscriptions table (dict keyed by subscription id). -/
abbrev Subs := PyDict String SubscriptionEntry

def SubscriptionManager.register (subs : Subs) (entry : SubscriptionEntry) :
    Subs :=
  dictInsert subs entry.id entry

def SubscriptionManager.unregister (subs : Subs) (sid : String) : Subs :=
  dictRemove subs sid

def SubscriptionManager.clear (_subs : Subs) : Subs := []

/-- A record of one callback invocation: the id the entry had when the
operation started, the callback tag, and the datum passed in. -/
structure CbCall where
  entryId : String
  callback : Nat
  data : JVal
deriving DecidableEq

/-- SubscriptionManager.handle_push. cbRaises models, per callback tag
and datum, whether the Python callback raises; the source wraps the
invocation in try/except and only logs a raise, so the raise outcome is
evaluated and discarded. Returns the table afterwards together with the
invocation log. -/
def SubscriptionManager.handle_push (cbRaises : Nat → JVal → Bool)
    (subs : Subs) (sid : String) (data : JVal) : Subs × List CbCall :=
  match dictLookup subs sid with
  | none => (subs, [])
  | some entry =>
      let _raised := cbRaises entry.callback data
      (subs, [⟨entry.id, entry.callback, data⟩])

/-- C8: handle_push on an id absent from the table is a no-op (table
unchanged, no callback invoked, no exception); on a present id it invokes
that entry callback exactly once with the data; the outcome never depends
on whether the callback raises (the exception is caught, not propagated),
and the table is returned unchanged, so subsequent register, unregister
and handle_push calls behave exactly as on the original table. -/
theorem C8_handle_push_spec (cbRaises cbRaises2 : Nat → JVal → Bool)
    (subs : Subs) (sid : String) (data : JVal) :
    (dictLookup subs sid = none →
      SubscriptionManager.handle_push cbRaises subs sid data = (subs, []))
    ∧ (∀ entry, dictLookup subs sid = some entry →
        SubscriptionManager.handle_push cbRaises subs sid data =
          (subs, [⟨entry.id, entry.callback, data⟩]))
    ∧ SubscriptionManager.handle_push cbRaises subs sid data =
        SubscriptionManager.handle_push cbRaises2 subs sid data
    ∧ (∀ e2, SubscriptionManager.register
        (SubscriptionManager.handle_push cbRaises subs sid data).1 e2 =
        SubscriptionManager.register subs e2)
    ∧ (∀ k, SubscriptionManager.unregister
        (SubscriptionManager.handle_push cbRaises subs sid data).1 k =
        SubscriptionManager.unregister subs k) := by
  unfold SubscriptionManager.handle_push
  rcases h : dictLookup subs sid with _ | e <;> simp [h]

/-- Witness for C8 at concrete inputs. -/
theorem C8_handle_push_spec_witness :
    SubscriptionManager.handle_push (fun _ _ => true)
      [("s1", ⟨"s1", "subscription", 7, ⟨"store.subscribe", []⟩⟩)]
      "missing" (.int 1) =
      ([("s1", ⟨"s1", "subscription", 7, ⟨"store.subscribe", []⟩⟩)], []) :=
  (C8_handle_push_spec (fun _ _ => true) (fun _ _ => false)
      [("s1", ⟨"s1", "subscription", 7, ⟨"store.subscribe", []⟩⟩)]
      "missing" (.int 1)).1 (by decide)

theorem dictLookup_append_of_some {κ α : Type} [DecidableEq κ]
    (A B : PyDict κ α) (k : κ) (v : α) (h : dictLookup A k = some v) :
    dictLookup (A ++ B) k = some v := by
  induction A with
  | nil => simp [dictLookup] at h
  | cons hd tl ih =>
    obtain ⟨k0, v0⟩ := hd
    by_cases h0 : k0 = k
    · simp [dictLookup, h0] at h ⊢
      exact h
    · simp [dictLookup, h0] at h ⊢
      exact ih h

theorem dictLookup_append_of_none {κ α : Type} [DecidableEq κ]
    (A B : PyDict κ α) (k : κ) (h : dictLookup A k = none) :
    dictLookup (A ++ B) k = dictLookup B k := by
  induction A with
  | nil => simp
  | cons hd tl ih =>
    obtain ⟨k0, v0⟩ := hd
    by_cases h0 : k0 = k
    · simp [dictLookup, h0] at h
    · simp [dictLookup, h0] at h ⊢
      exact ih h

theorem dictKeys_append {κ α : Type} (A B : PyDict κ α) :
    dictKeys (A ++ B) = dictKeys A ++ dictKeys B := by
  simp [dictKeys]

theorem dictKeys_cons {κ α : Type} (k : κ) (v : α) (l : PyDict κ α) :
    dictKeys ((k, v) :: l) = k :: dictKeys l := rfl

theorem dictKeys_remove_subset {κ α : Type} [DecidableEq κ]
    (l : PyDict κ α) (k k' : κ) (h : k' ∈ dictKeys (dictRemove l k)) :
    k' ∈ dictKeys l := by
  induction l with
  | nil => simpa [dictRemove] using h
  | cons hd tl ih =>
    obtain ⟨k0, v0⟩ := hd
    by_cases h0 : k0 = k
    · rw [dictRemove, if_pos h0] at h
      exact List.mem_cons_of_mem _ (ih h)
    · rw [dictRemove, if_neg h0, dictKeys_cons] at h
      rcases List.mem_cons.mp h with h | h
      · exact List.mem_cons.mpr (Or.inl h)
      · exact List.mem_cons_of_mem _ (ih h)

theorem dictRemove_append_of_not_mem {κ α : Type} [DecidableEq κ]
    (A B : PyDict κ α) (k : κ) (h : k ∉ dictKeys B) :
    dictRemove (A ++ B) k = dictRemove A k ++ B := by
  induction A with
  | nil =>
    simpa [dictRemove] using
      dictRemove_of_lookup_none B k (dictLookup_eq_none_of_not_mem_keys B k h)
  | cons hd tl ih =>
    obtain ⟨k0, v0⟩ := hd
    by_cases h0 : k0 = k
    · simp [dictRemove, h0, ih]
    · simp [dictRemove, h0, ih]

/-- Iterated removal, matching successive Python del statements. -/
def removeKeys {κ α : Type} [DecidableEq κ] (l : PyDict κ α) (ks : List κ) :
    PyDict κ α :=
  ks.foldl dictRemove l

theorem removeKeys_append_of_disjoint {κ α : Type} [DecidableEq κ]
    (A B : PyDict κ α) (ks : List κ) (h : ∀ k ∈ ks, k ∉ dictKeys B) :
    removeKeys (A ++ B) ks = removeKeys A ks ++ B := by
  induction ks generalizing A with
  | nil => rfl
  | cons k ks ih =>
    have h1 : k ∉ dictKeys B := h k (List.mem_cons_self _ _)
    calc removeKeys (A ++ B) (k :: ks)
        = removeKeys (dictRemove (A ++ B) k) ks := rfl
      _ = removeKeys (dictRemove A k ++ B) ks := by
          rw [dictRemove_append_of_not_mem A B k h1]
      _ = removeKeys (dictRemove A k) ks ++ B :=
          ih (dictRemove A k) (fun k2 hk2 => h k2 (List.mem_cons_of_mem _ hk2))
      _ = removeKeys A (k :: ks) ++ B := rfl

theorem dictLookup_removeKeys {κ α : Type} [DecidableEq κ]
    (l : PyDict κ α) (ks : List κ) (k : κ) :
    dictLookup (removeKeys l ks) k =
      if k ∈ ks then none else dictLookup l k := by
  induction ks generalizing l with
  | nil => simp [removeKeys]
  | cons k0 ks ih =>
    have hstep : removeKeys l (k0 :: ks) = removeKeys (dictRemove l k0) ks :=
      rfl
    rw [hstep, ih (dictRemove l k0), dictLookup_remove]
    by_cases hk : k0 = k
    · subst hk
      by_cases hmem : k0 ∈ ks <;> simp [hmem]
    · by_cases hmem : k ∈ ks <;> simp [hmem, hk, Ne.symm hk]

theorem dictKeys_removeKeys_subset {κ α : Type} [DecidableEq κ]
    (l : PyDict κ α) (ks : List κ) (k : κ)
    (h : k ∈ dictKeys (removeKeys l ks)) : k ∈ dictKeys l := by
  induction ks generalizing l with
  | nil => simpa [removeKeys] using h
  | cons k0 ks ih =>
    exact dictKeys_remove_subset l k0 k (ih (dictRemove l k0) h)

theorem dictLookup_eq_some_of_mem_of_nodup {κ α : Type} [DecidableEq κ]
    (l : PyDict κ α) (k : κ) (v : α) (hnd : (dictKeys l).Nodup)
    (hm : (k, v) ∈ l) : dictLookup l k = some v := by
  induction l with
  | nil => simp at hm
  | cons hd tl ih =>
    obtain ⟨k0, v0⟩ := hd
    simp [dictKeys] at hnd
    rcases List.mem_cons.mp hm with h | h
    · obtain ⟨h1, h2⟩ := Prod.mk.injEq .. ▸ h
      simp [dictLookup, h1.symm, h2]
    · have hk : k0 ≠ k := by
        intro he
        exact hnd.1 v (by rwa [he])
      simp [dictLookup, hk, ih hnd.2 h]

/-- Outcome of one awaited send inside resubscribe_all. fail models the
send raising, or returning a value that is not a dict carrying a
"subscriptionId" key (in all those cases the exception fires before the
table was touched, and the outer except then discards the entry).
ok newId hasData data models a returned dict whose "subscriptionId" field
is the string newId and which has a "data" key exactly when hasData is
true, with value data. -/
inductive SendResult where
  | fail
  | ok (newId : String) (hasData : Bool) (data : JVal)
deriving DecidableEq

/-- One iteration of the for-loop in resubscribe_all, over the table
state, for the snapshot entry (with the id it had at snapshot time) and
the outcome of its awaited send. Mirrors the try/except of the source:
on fail the outer except pops entry.id; on success del removes the old
binding (a KeyError from del on an absent key is caught by the same
outer except, which then pops the id, a no-op), the entry is rebound
under the new id, and if the result has a data key the callback is
invoked once inside the inner try/except, its raise outcome discarded. -/
def resubStep (cbRaises : Nat → JVal → Bool) (tbl : Subs)
    (entry : SubscriptionEntry) (res : SendResult) : Subs × List CbCall :=
  match res with
  | .fail => (dictRemove tbl entry.id, [])
  | .ok newId hasData data =>
      match dictLookup tbl entry.id with
      | none => (dictRemove tbl entry.id, [])
      | some _ =>
          let tbl1 := dictInsert (dictRemove tbl entry.id) newId
            { entry with id := newId }
          if hasData then
            let _raised := cbRaises entry.callback data
            (tbl1, [⟨entry.id, entry.callback, data⟩])
          else (tbl1, [])

/-- The for-loop of resubscribe_all over the snapshot, threading the
table and accumulating the callback-invocation log. -/
def resubLoop (cbRaises : Nat → JVal → Bool) :
    Subs → List (SubscriptionEntry × SendResult) → Subs × List CbCall
  | tbl, [] => (tbl, [])
  | tbl, (e, r) :: rest =>
      let step := resubStep cbRaises tbl e r
      let next := resubLoop cbRaises step.1 rest
      (next.1, step.2 ++ next.2)

/-- The snapshot list(self._subscriptions.values()) paired with the
outcome of the awaited send for each snapshot position. -/
def resubPairs (results : Nat → SendResult) (tbl : Subs) :
    List (SubscriptionEntry × SendResult) :=
  (tbl.map Prod.snd).zip ((List.range tbl.length).map results)

/-- SubscriptionManager.resubscribe_all from subscription_manager.py:
snapshot the current entries, then run the loop. -/
def SubscriptionManager.resubscribe_all (cbRaises : Nat → JVal → Bool)
    (results : Nat → SendResult) (tbl : Subs) : Subs × List CbCall :=
  resubLoop cbRaises tbl (resubPairs results tbl)

/-- The ids the snapshot entries had when the loop started. -/
def oldIds (pairs : List (SubscriptionEntry × SendResult)) : List String :=
  pairs.map (fun p => p.1.id)

/-- The new ids assigned by the successful sends, in snapshot order. -/
def okNewIds (pairs : List (SubscriptionEntry × SendResult)) : List String :=
  pairs.filterMap (fun p =>
    match p.2 with
    | .ok nid _ _ => some nid
    | .fail => none)

/-- The rebound table entries produced by the successful sends. -/
def newBindings (pairs : List (SubscriptionEntry × SendResult)) : Subs :=
  pairs.filterMap (fun p =>
    match p.2 with
    | .ok nid _ _ => some (nid, { p.1 with id := nid })
    | .fail => none)

/-- The callback invocations performed during resubscription. -/
def resubLog (pairs : List (SubscriptionEntry × SendResult)) : List CbCall :=
  pairs.filterMap (fun p =>
    match p.2 with
    | .ok _ true d => some ⟨p.1.id, p.1.callback, d⟩
    | _ => none)

theorem dictKeys_newBindings (pairs : List (SubscriptionEntry × SendResult)) :
    dictKeys (newBindings pairs) = okNewIds pairs := by
  induction pairs with
  | nil => rfl
  | cons p rest ih =>
    obtain ⟨e, r⟩ := p
    cases r with
    | fail => simpa [newBindings, okNewIds, dictKeys] using ih
    | ok nid hd d =>
      simp [newBindings, okNewIds, dictKeys] at ih ⊢
      exact ih


theorem oldIds_cons (e : SubscriptionEntry) (r : SendResult)
    (rest : List (SubscriptionEntry × SendResult)) :
    oldIds ((e, r) :: rest) = e.id :: oldIds rest := rfl

theorem okNewIds_cons_fail (e : SubscriptionEntry)
    (rest : List (SubscriptionEntry × SendResult)) :
    okNewIds ((e, .fail) :: rest) = okNewIds rest := by
  simp [okNewIds]

theorem okNewIds_cons_ok (e : SubscriptionEntry) (nid : String) (hd : Bool)
    (d : JVal) (rest : List (SubscriptionEntry × SendResult)) :
    okNewIds ((e, .ok nid hd d) :: rest) = nid :: okNewIds rest := by
  simp [okNewIds]

theorem newBindings_cons_fail (e : SubscriptionEntry)
    (rest : List (SubscriptionEntry × SendResult)) :
    newBindings ((e, .fail) :: rest) = newBindings rest := by
  simp [newBindings]

theorem newBindings_cons_ok (e : SubscriptionEntry) (nid : String) (hd : Bool)
    (d : JVal) (rest : List (SubscriptionEntry × SendResult)) :
    newBindings ((e, .ok nid hd d) :: rest) =
      (nid, { e with id := nid }) :: newBindings rest := by
  simp [newBindings]

theorem resubLog_cons_fail (e : SubscriptionEntry)
    (rest : List (SubscriptionEntry × SendResult)) :
    resubLog ((e, .fail) :: rest) = resubLog rest := by
  simp [resubLog]

theorem resubLog_cons_ok (e : SubscriptionEntry) (nid : String) (hd : Bool)
    (d : JVal) (rest : List (SubscriptionEntry × SendResult)) :
    resubLog ((e, .ok nid hd d) :: rest) =
      (if hd then [⟨e.id, e.callback, d⟩] else []) ++ resubLog rest := by
  cases hd <;> simp [resubLog]

theorem removeKeys_cons {κ α : Type} [DecidableEq κ] (l : PyDict κ α)
    (k : κ) (ks : List κ) :
    removeKeys l (k :: ks) = removeKeys (dictRemove l k) ks := rfl

theorem resubLoop_cons (cbRaises : Nat → JVal → Bool) (T : Subs)
    (e : SubscriptionEntry) (r : SendResult)
    (rest : List (SubscriptionEntry × SendResult)) :
    resubLoop cbRaises T ((e, r) :: rest) =
      ((resubLoop cbRaises (resubStep cbRaises T e r).1 rest).1,
       (resubStep cbRaises T e r).2 ++
         (resubLoop cbRaises (resubStep cbRaises T e r).1 rest).2) := rfl

theorem resubStep_fail (cbRaises : Nat → JVal → Bool) (T : Subs)
    (e : SubscriptionEntry) :
    resubStep cbRaises T e .fail = (dictRemove T e.id, []) := rfl

theorem resubStep_ok_found (cbRaises : Nat → JVal → Bool) (T : Subs)
    (e : SubscriptionEntry) (nid : String) (hd : Bool) (d : JVal)
    (v : SubscriptionEntry) (h : dictLookup T e.id = some v) :
    resubStep cbRaises T e (.ok nid hd d) =
      (dictInsert (dictRemove T e.id) nid { e with id := nid },
       if hd then [⟨e.id, e.callback, d⟩] else []) := by
  unfold resubStep
  rw [h]
  cases hd <;> simp

/-- Closed form of the resubscription loop: under the dict invariant
(each processed entry is bound in the table under its own id, old ids
distinct) and freshness of the server-assigned new ids, the loop removes
every processed old binding, appends the rebound entries of the
successful sends in order, and invokes exactly the callbacks of the
successful sends that carried data. -/
theorem resubLoop_closed_form (cbRaises : Nat → JVal → Bool)
    (pairs : List (SubscriptionEntry × SendResult)) (T : Subs)
    (hbound : ∀ p ∈ pairs, dictLookup T p.1.id = some p.1)
    (hnd : (oldIds pairs).Nodup)
    (hfresh : ∀ nid ∈ okNewIds pairs, nid ∉ dictKeys T)
    (hndnew : (okNewIds pairs).Nodup) :
    resubLoop cbRaises T pairs =
      (removeKeys T (oldIds pairs) ++ newBindings pairs, resubLog pairs) := by
  induction pairs generalizing T with
  | nil => simp [resubLoop, removeKeys, oldIds, newBindings, resubLog]
  | cons p rest ih =>
    obtain ⟨e, r⟩ := p
    have he : dictLookup T e.id = some e :=
      hbound (e, r) (List.mem_cons_self _ _)
    have hndc := (List.nodup_cons.mp (by rw [oldIds_cons] at hnd; exact hnd))
    have hndTail : (oldIds rest).Nodup := hndc.2
    have hHeadNotTail : e.id ∉ oldIds rest := hndc.1
    have hTailNe : ∀ q ∈ rest, q.1.id ≠ e.id := by
      intro q hq hqe
      exact hHeadNotTail (hqe ▸ List.mem_map_of_mem (fun p => p.1.id) hq)
    cases r with
    | fail =>
      have hT1bound : ∀ q ∈ rest, dictLookup (dictRemove T e.id) q.1.id =
          some q.1 := by
        intro q hq
        rw [dictLookup_remove, if_neg (fun h => hTailNe q hq h.symm)]
        exact hbound q (List.mem_cons_of_mem _ hq)
      have hT1fresh : ∀ nid ∈ okNewIds rest,
          nid ∉ dictKeys (dictRemove T e.id) := by
        intro nid hm hk
        exact hfresh nid (by rw [okNewIds_cons_fail]; exact hm)
          (dictKeys_remove_subset T e.id nid hk)
      have hrec := ih (dictRemove T e.id) hT1bound hndTail hT1fresh
        (by rw [okNewIds_cons_fail] at hndnew; exact hndnew)
      rw [resubLoop_cons, resubStep_fail, hrec, oldIds_cons,
        newBindings_cons_fail, resubLog_cons_fail, removeKeys_cons]
      simp
    | ok nid hd d =>
      have hnidFresh : nid ∉ dictKeys T :=
        hfresh nid (by rw [okNewIds_cons_ok]; exact List.mem_cons_self _ _)
      have hndnew2 : (nid :: okNewIds rest).Nodup := by
        rw [okNewIds_cons_ok] at hndnew
        exact hndnew
      have hndnewc := List.nodup_cons.mp hndnew2
      have hnidTail : nid ∉ okNewIds rest := hndnewc.1
      have hlookRem : dictLookup (dictRemove T e.id) nid = none := by
        rw [dictLookup_remove]
        split
        · rfl
        · exact dictLookup_eq_none_of_not_mem_keys T nid hnidFresh
      have hT1eq : dictInsert (dictRemove T e.id) nid { e with id := nid } =
          dictRemove T e.id ++ [(nid, { e with id := nid })] :=
        dictInsert_of_lookup_none _ _ _ hlookRem
      have hT1bound : ∀ q ∈ rest,
          dictLookup (dictRemove T e.id ++ [(nid, { e with id := nid })])
            q.1.id = some q.1 := by
        intro q hq
        apply dictLookup_append_of_some
        rw [dictLookup_remove, if_neg (fun h => hTailNe q hq h.symm)]
        exact hbound q (List.mem_cons_of_mem _ hq)
      have hT1fresh : ∀ nid2 ∈ okNewIds rest,
          nid2 ∉ dictKeys
            (dictRemove T e.id ++ [(nid, { e with id := nid })]) := by
        intro nid2 hm hk
        rw [dictKeys_append] at hk
        rcases List.mem_append.mp hk with hk | hk
        · exact hfresh nid2
            (by rw [okNewIds_cons_ok]; exact List.mem_cons_of_mem _ hm)
            (dictKeys_remove_subset T e.id nid2 hk)
        · have hh : nid2 = nid := by simpa [dictKeys] using hk
          exact hnidTail (hh ▸ hm)
      have hrec := ih (dictRemove T e.id ++ [(nid, { e with id := nid })])
        hT1bound hndTail hT1fresh hndnewc.2
      have hRestOld : ∀ k ∈ oldIds rest,
          k ∉ dictKeys ([(nid, { e with id := nid })] : Subs) := by
        intro k hk hmem
        have hknid : k = nid := by simpa [dictKeys] using hmem
        obtain ⟨q, hq, hid⟩ := List.mem_map.mp hk
        have hl := hbound q (List.mem_cons_of_mem _ hq)
        have hkT : k ∈ dictKeys T := by
          rw [← hid]
          exact mem_keys_of_lookup_isSome T _ (by simp [hl])
        exact hnidFresh (hknid ▸ hkT)
      rw [resubLoop_cons, resubStep_ok_found cbRaises T e nid hd d e he,
        hT1eq, hrec, oldIds_cons, newBindings_cons_ok, resubLog_cons_ok,
        removeKeys_cons, removeKeys_append_of_disjoint _ _ _ hRestOld]
      simp

theorem oldIds_resubPairs (results : Nat → SendResult) (tbl : Subs)
    (hids : ∀ q ∈ tbl, q.2.id = q.1) :
    oldIds (resubPairs results tbl) = dictKeys tbl := by
  unfold oldIds resubPairs dictKeys
  have hlen : (tbl.map Prod.snd).length ≤
      ((List.range tbl.length).map results).length := by simp
  rw [show (fun p : SubscriptionEntry × SendResult => p.1.id) =
      (fun e : SubscriptionEntry => e.id) ∘ Prod.fst from rfl,
    ← List.map_map, List.map_fst_zip _ _ hlen, List.map_map]
  exact List.map_congr_left (fun q hq => hids q hq)

theorem resubPairs_bound (results : Nat → SendResult) (tbl : Subs)
    (hnd : (dictKeys tbl).Nodup) (hids : ∀ q ∈ tbl, q.2.id = q.1) :
    ∀ p ∈ resubPairs results tbl, dictLookup tbl p.1.id = some p.1 := by
  intro p hp
  obtain ⟨q, hq, hsnd⟩ := List.mem_map.mp (List.of_mem_zip hp).1
  rw [← hsnd, hids q hq]
  exact dictLookup_eq_some_of_mem_of_nodup tbl q.1 q.2 hnd hq

theorem resubLog_mem_spec (pairs : List (SubscriptionEntry × SendResult)) :
    ∀ c ∈ resubLog pairs, ∃ q, q ∈ pairs ∧ ∃ nid d,
      q.2 = .ok nid true d ∧ c = ⟨q.1.id, q.1.callback, d⟩ := by
  intro c hc
  obtain ⟨q, hq, hf⟩ := List.mem_filterMap.mp hc
  obtain ⟨e, r⟩ := q
  cases r with
  | fail => simp at hf
  | ok nid hd d =>
    cases hd with
    | false => simp at hf
    | true =>
      simp at hf
      exact ⟨(e, .ok nid true d), hq, nid, d, rfl, hf.symm⟩

theorem resubLog_filter_eq (pairs : List (SubscriptionEntry × SendResult))
    (hnd : (oldIds pairs).Nodup) (p : SubscriptionEntry × SendResult)
    (hp : p ∈ pairs) :
    (resubLog pairs).filter (fun c => decide (c.entryId = p.1.id)) =
      (match p.2 with
       | .ok nid true d => [⟨p.1.id, p.1.callback, d⟩]
       | _ => ([] : List CbCall)) := by
  induction pairs with
  | nil => simp at hp
  | cons q rest ih =>
    obtain ⟨e, r⟩ := q
    have hndc := List.nodup_cons.mp (by rw [oldIds_cons] at hnd; exact hnd)
    have hRestNe : ∀ c ∈ resubLog rest, c.entryId ≠ e.id := by
      intro c hc hce
      obtain ⟨q2, hq2, nid2, d2, _, hcq⟩ := resubLog_mem_spec rest c hc
      apply hndc.1
      rw [← hce, hcq]
      exact List.mem_map_of_mem (fun p => p.1.id) hq2
    rcases List.mem_cons.mp hp with hp | hp
    · subst hp
      have hRestNil : (resubLog rest).filter
          (fun c => decide (c.entryId = e.id)) = [] := by
        rw [List.filter_eq_nil]
        intro c hc
        simpa using hRestNe c hc
      cases r with
      | fail =>
        rw [resubLog_cons_fail]
        exact hRestNil
      | ok nid hd d =>
        rw [resubLog_cons_ok, List.filter_append, hRestNil]
        cases hd <;> simp
    · have hpe : p.1.id ≠ e.id := by
        intro hh
        apply hndc.1
        rw [← hh]
        exact List.mem_map_of_mem (fun p => p.1.id) hp
      have hih := ih hndc.2 hp
      cases r with
      | fail =>
        rw [resubLog_cons_fail]
        exact hih
      | ok nid hd d =>
        rw [resubLog_cons_ok, List.filter_append, hih]
        cases hd <;> simp [hpe, Ne.symm hpe]

/-- C6: in a run of resubscribe_all over the snapshot of the current
entries (each paired with the outcome of its awaited send, the returned
subscription ids being genuinely new, that is fresh and pairwise
distinct): every entry whose send succeeds ends up in the table only
under its new id (the old key is gone), with its callback invoked exactly
once with the returned initial data when the result carries a data field
and not at all otherwise (a raising callback is caught, not propagated,
as the outcome never depends on cbRaises); every entry whose send fails
is removed from the table, with no callback invocation, and the remaining
entries are still processed as described (one failure never aborts the
batch). -/
theorem C6_resubscribe_all_spec (cbRaises : Nat → JVal → Bool)
    (results : Nat → SendResult) (tbl : Subs)
    (hnd : (dictKeys tbl).Nodup)
    (hids : ∀ q ∈ tbl, q.2.id = q.1)
    (hfresh : ∀ nid ∈ okNewIds (resubPairs results tbl), nid ∉ dictKeys tbl)
    (hndnew : (okNewIds (resubPairs results tbl)).Nodup) :
    ∀ p ∈ resubPairs results tbl,
      dictLookup (SubscriptionManager.resubscribe_all cbRaises results tbl).1
          p.1.id = none
      ∧ (SubscriptionManager.resubscribe_all cbRaises results tbl).2.filter
          (fun c => decide (c.entryId = p.1.id)) =
          (match p.2 with
           | .ok nid true d => [⟨p.1.id, p.1.callback, d⟩]
           | _ => ([] : List CbCall))
      ∧ (∀ nid hd d, p.2 = .ok nid hd d →
          dictLookup
            (SubscriptionManager.resubscribe_all cbRaises results tbl).1 nid =
            some { p.1 with id := nid })
      ∧ SubscriptionManager.resubscribe_all cbRaises results tbl =
          SubscriptionManager.resubscribe_all (fun _ _ => false) results tbl := by
  have hbound := resubPairs_bound results tbl hnd hids
  have hOld : oldIds (resubPairs results tbl) = dictKeys tbl :=
    oldIds_resubPairs results tbl hids
  have hndOld : (oldIds (resubPairs results tbl)).Nodup := by
    rw [hOld]; exact hnd
  have hclosed := resubLoop_closed_form cbRaises (resubPairs results tbl) tbl
    hbound hndOld hfresh hndnew
  have hclosed2 := resubLoop_closed_form (fun _ _ => false)
    (resubPairs results tbl) tbl hbound hndOld hfresh hndnew
  intro p hp
  have hpidOld : p.1.id ∈ oldIds (resubPairs results tbl) :=
    List.mem_map_of_mem (fun p => p.1.id) hp
  have hpidKeys : p.1.id ∈ dictKeys tbl := by rw [← hOld]; exact hpidOld
  have hpidNotNew : p.1.id ∉ dictKeys (newBindings (resubPairs results tbl)) := by
    rw [dictKeys_newBindings]
    intro hmem
    exact hfresh p.1.id hmem hpidKeys
  refine ⟨?_, ?_, ?_, ?_⟩
  · show dictLookup (resubLoop cbRaises tbl (resubPairs results tbl)).1
        p.1.id = none
    rw [hclosed]
    show dictLookup (removeKeys tbl (oldIds (resubPairs results tbl)) ++
        newBindings (resubPairs results tbl)) p.1.id = none
    rw [dictLookup_append_of_none _ _ _
        (by rw [dictLookup_removeKeys]; exact if_pos hpidOld)]
    exact dictLookup_eq_none_of_not_mem_keys _ _ hpidNotNew
  · show (resubLoop cbRaises tbl (resubPairs results tbl)).2.filter _ = _
    rw [hclosed]
    exact resubLog_filter_eq (resubPairs results tbl) hndOld p hp
  · intro nid hd d hok
    have hnidNew : nid ∈ okNewIds (resubPairs results tbl) :=
      List.mem_filterMap.mpr ⟨p, hp, by rw [hok]⟩
    have hnidKeys : nid ∉ dictKeys tbl := hfresh nid hnidNew
    show dictLookup (resubLoop cbRaises tbl (resubPairs results tbl)).1 nid =
      some { p.1 with id := nid }
    rw [hclosed]
    show dictLookup (removeKeys tbl (oldIds (resubPairs results tbl)) ++
        newBindings (resubPairs results tbl)) nid = some { p.1 with id := nid }
    have hnone : dictLookup
        (removeKeys tbl (oldIds (resubPairs results tbl))) nid = none := by
      apply dictLookup_eq_none_of_not_mem_keys
      intro hmem
      exact hnidKeys (dictKeys_removeKeys_subset _ _ _ hmem)
    rw [dictLookup_append_of_none _ _ _ hnone]
    apply dictLookup_eq_some_of_mem_of_nodup
    · rw [dictKeys_newBindings]
      exact hndnew
    · exact List.mem_filterMap.mpr ⟨p, hp, by rw [hok]⟩
  · show resubLoop cbRaises tbl (resubPairs results tbl) =
        resubLoop (fun _ _ => false) tbl (resubPairs results tbl)
    rw [hclosed, hclosed2]

/-- A concrete one-entry table for exercising resubscription. -/
def resubWitnessEntry : SubscriptionEntry :=
  ⟨"old_1", "subscription", 3, ⟨"store.subscribe", [("bucket", .str "users")]⟩⟩

/-- Witness for C6: one entry keyed by the old id, a send returning a new
id and initial data; afterwards the table holds only the new id and the
callback received the data exactly once. -/
theorem C6_resubscribe_all_spec_witness :
    dictLookup (SubscriptionManager.resubscribe_all (fun _ _ => false)
        (fun _ => .ok "new_1" true (.int 9)) [("old_1", resubWitnessEntry)]).1
        "old_1" = none
    ∧ dictLookup (SubscriptionManager.resubscribe_all (fun _ _ => false)
        (fun _ => .ok "new_1" true (.int 9)) [("old_1", resubWitnessEntry)]).1
        "new_1" = some { resubWitnessEntry with id := "new_1" }
    ∧ (SubscriptionManager.resubscribe_all (fun _ _ => false)
        (fun _ => .ok "new_1" true (.int 9)) [("old_1", resubWitnessEntry)]).2.filter
        (fun c => decide (c.entryId = "old_1")) =
        [⟨"old_1", 3, .int 9⟩] := by
  have h := C6_resubscribe_all_spec (fun _ _ => false)
    (fun _ => .ok "new_1" true (.int 9)) [("old_1", resubWitnessEntry)]
    (by decide) (by decide) (by decide) (by decide)
    (resubWitnessEntry, .ok "new_1" true (.int 9)) (by decide)
  exact ⟨h.1, h.2.2.1 "new_1" true (.int 9) rfl, h.2.1⟩

/- ══════════ protocol/request_manager.py : RequestManager ══════════ -/

/-- How a pending request future is settled. result carries the data
field (an absent data key reads as Python None, JVal.null); serverError
carries the raw code, message and details fields with the source
defaults already applied; unexpectedType is the catch-all failure and
records the offending type field; rejected carries the identity tag of
the exception object passed to reject_all; timedOut is the timeout
failure. -/
inductive Settlement where
  | result (data : JVal)
  | serverError (code message details : JVal)
  | unexpectedType (msgType : Option JVal)
  | rejected (e : Nat)
  | timedOut
deriving DecidableEq

/-- Observable side effects of RequestManager operations, in order:
a serialized envelope handed to transport.send, a timeout-timer
cancellation, or the settlement of the future registered under an id. -/
inductive RMEffect where
  | wireSend (m : Msg)
  | timerCancel (id : Int)
  | settle (id : Int) (s : Settlement)
deriving DecidableEq

/-- One pending entry: the originating message type (kept for
diagnostics) and whether the future is already done (possible when the
awaiting task was cancelled externally; reject_all checks it). -/
structure PendingRequest where
  msg_type : String
  futureDone : Bool
deriving DecidableEq

/-- RequestManager state: the pending table keyed by correlation id and
the next-id counter, which starts at 1. -/
structure RequestManager where
  pending : PyDict Int PendingRequest
  next_id : Int
deriving DecidableEq

def RequestManager.init : RequestManager := ⟨[], 1⟩

/-- The outgoing envelope built in send: msg = .x7bid, type.x7d, then
msg.update(payload) when payload is truthy (a None or empty payload is
falsy and skipped). update overwrites existing keys, including id and
type. -/
def buildWireMsg (msg_id : Int) (msg_type : String) (payload : Msg) : Msg :=
  let base : Msg := [("id", .int msg_id), ("type", .str msg_type)]
  if payload.isEmpty then base
  else payload.foldl (fun m kv => dictInsert m kv.1 kv.2) base

/-- RequestManager.send up to its suspension point: allocates the next
correlation id, arms the timeout timer, registers the pending entry
(future not yet done), serializes the envelope and hands it to the
transport. Returns the new state, the effects and the assigned id. -/
def RequestManager.send (st : RequestManager) (msg_type : String)
    (payload : Msg) : RequestManager × List RMEffect × Int :=
  let msg_id := st.next_id
  let st1 : RequestManager :=
    { pending := dictInsert st.pending msg_id ⟨msg_type, false⟩
      next_id := st.next_id + 1 }
  (st1, [.wireSend (buildWireMsg msg_id msg_type payload)], msg_id)

/-- The settlement applied once handle_message has popped the entry:
the if/elif/else chain over the message type in request_manager.py,
with the source defaults for absent code, message, details and data. -/
def settlementOf (msg : Msg) : Settlement :=
  if msg.get "type" = some (.str "result") then
    Settlement.result ((msg.get "data").getD .null)
  else if msg.get "type" = some (.str "error") then
    Settlement.serverError
      ((msg.get "code").getD (.str "UNKNOWN"))
      ((msg.get "message").getD (.str "Unknown server error"))
      ((msg.get "details").getD .null)
  else Settlement.unexpectedType (msg.get "type")

/-- RequestManager.handle_message from request_manager.py. Returns the
new state, the effects and the Python return value. The id check is
Python isinstance(msg_id, int), under which booleans count as integers
with values 0 and 1 (also as dict keys). -/
def RequestManager.handle_message (st : RequestManager) (msg : Msg) :
    RequestManager × List RMEffect × Bool :=
  let msg_type := msg.get "type"
  if msg_type = some (.str "push") ∨ msg_type = some (.str "ping")
      ∨ msg_type = some (.str "welcome")
      ∨ msg_type = some (.str "system") then
    (st, [], false)
  else
    match (msg.get "id").bind JVal.asPyInt with
    | none => (st, [], false)
    | some msg_id =>
        match dictLookup st.pending msg_id with
        | none => (st, [], false)
        | some _pending =>
            let st1 : RequestManager :=
              { st with pending := dictRemove st.pending msg_id }
            (st1, [.timerCancel msg_id, .settle msg_id (settlementOf msg)],
             true)

/-- RequestManager.reject_all: cancel every pending timer, fail every
not-yet-done future with the given error, clear the table. -/
def RequestManager.reject_all (st : RequestManager) (e : Nat) :
    RequestManager × List RMEffect :=
  let effs := st.pending.flatMap (fun kv =>
    .timerCancel kv.1 ::
      (if kv.2.futureDone then [] else [.settle kv.1 (.rejected e)]))
  ({ st with pending := [] }, effs)

/-- RequestManager._handle_timeout: pop the entry if present and fail
its future with the timeout error unless it is already done. -/
def RequestManager.handle_timeout (st : RequestManager) (msg_id : Int) :
    RequestManager × List RMEffect :=
  match dictLookup st.pending msg_id with
  | none => (st, [])
  | some p =>
      ({ st with pending := dictRemove st.pending msg_id },
       if p.futureDone then [] else [.settle msg_id .timedOut])

/-- The operations that can interleave on one RequestManager instance. -/
inductive RMOp where
  | send (msg_type : String) (payload : Msg)
  | handle (msg : Msg)
  | rejectAll (e : Nat)
  | timeout (msg_id : Int)

/-- Run a sequence of operations, collecting the correlation ids the
send calls assigned, in order. -/
def RequestManager.run (st : RequestManager) :
    List RMOp → RequestManager × List Int
  | [] => (st, [])
  | .send t p :: ops =>
      let r := st.send t p
      let rest := RequestManager.run r.1 ops
      (rest.1, r.2.2 :: rest.2)
  | .handle m :: ops => RequestManager.run (st.handle_message m).1 ops
  | .rejectAll e :: ops => RequestManager.run (st.reject_all e).1 ops
  | .timeout i :: ops => RequestManager.run (st.handle_timeout i).1 ops

theorem next_id_handle_message (st : RequestManager) (msg : Msg) :
    (st.handle_message msg).1.next_id = st.next_id := by
  unfold RequestManager.handle_message
  dsimp only
  repeat' split
  all_goals rfl

theorem next_id_reject_all (st : RequestManager) (e : Nat) :
    (st.reject_all e).1.next_id = st.next_id := rfl

theorem next_id_handle_timeout (st : RequestManager) (msg_id : Int) :
    (st.handle_timeout msg_id).1.next_id = st.next_id := by
  unfold RequestManager.handle_timeout
  split <;> rfl

theorem run_ids_lower_bound (ops : List RMOp) :
    ∀ st : RequestManager, ∀ x ∈ (RequestManager.run st ops).2,
      st.next_id ≤ x := by
  induction ops with
  | nil => intro st x hx; simp [RequestManager.run] at hx
  | cons op ops ih =>
    intro st x hx
    cases op with
    | send t p =>
      rcases List.mem_cons.mp hx with hx | hx
      · subst hx; exact le_refl _
      · have := ih ((st.send t p).1) x hx
        calc st.next_id ≤ st.next_id + 1 := by omega
          _ = (st.send t p).1.next_id := rfl
          _ ≤ x := this
    | handle m =>
      have := ih ((st.handle_message m).1) x hx
      rwa [next_id_handle_message] at this
    | rejectAll e =>
      exact ih ((st.reject_all e).1) x hx
    | timeout i =>
      have := ih ((st.handle_timeout i).1) x hx
      rwa [next_id_handle_timeout] at this

theorem run_ids_pairwise (ops : List RMOp) :
    ∀ st : RequestManager,
      List.Pairwise (· < ·) (RequestManager.run st ops).2 := by
  induction ops with
  | nil => intro st; simp [RequestManager.run]
  | cons op ops ih =>
    intro st
    cases op with
    | send t p =>
      show List.Pairwise (· < ·)
        ((st.send t p).2.2 :: (RequestManager.run (st.send t p).1 ops).2)
      refine List.Pairwise.cons ?_ (ih _)
      intro x hx
      have h1 := run_ids_lower_bound ops ((st.send t p).1) x hx
      have h2 : (st.send t p).1.next_id = st.next_id + 1 := rfl
      rw [h2] at h1
      show st.next_id < x
      omega
    | handle m => exact ih _
    | rejectAll e => exact ih _
    | timeout i => exact ih _

/-- C3: across any sequence of operations on one RequestManager
instance, each send call is assigned a correlation id strictly greater
than every previously assigned id (so ids never repeat for the lifetime
of the instance), and handle_message on a message carrying id k settles
at most the single pending entry registered under k: every settle effect
targets k, there is at most one, and the table is untouched at every
other key; a message with no (Python) integer id settles nothing and
leaves the state unchanged. -/
theorem C3_correlation_ids_and_isolation (st : RequestManager)
    (ops : List RMOp) (msg : Msg) (k : Int) :
    List.Pairwise (· < ·) (RequestManager.run st ops).2
    ∧ ((msg.get "id").bind JVal.asPyInt = some k →
        (∀ j, j ≠ k →
          dictLookup (st.handle_message msg).1.pending j =
            dictLookup st.pending j)
        ∧ (∀ j s, RMEffect.settle j s ∈ (st.handle_message msg).2.1 → j = k)
        ∧ (st.handle_message msg).2.1.countP
            (fun x => match x with | .settle _ _ => true | _ => false) ≤ 1)
    ∧ ((msg.get "id").bind JVal.asPyInt = none →
        (st.handle_message msg).1 = st
        ∧ (st.handle_message msg).2.1 = []) := by
  refine ⟨run_ids_pairwise ops st, ?_, ?_⟩
  · intro hk
    unfold RequestManager.handle_message
    dsimp only
    split
    · exact ⟨fun j _ => rfl, fun j s hs => by simp at hs, by simp⟩
    · rw [hk]
      dsimp only
      rcases hl : dictLookup st.pending k with _ | p
      · simp [hl]
      · simp only [hl]
        refine ⟨?_, ?_, ?_⟩
        · intro j hj
          show dictLookup (dictRemove st.pending k) j = dictLookup st.pending j
          rw [dictLookup_remove, if_neg (fun h => hj h.symm)]
        · intro j s hs
          simp at hs
          exact hs.1
        · simp [List.countP_cons]
  · intro hk
    unfold RequestManager.handle_message
    dsimp only
    split
    · exact ⟨rfl, rfl⟩
    · rw [hk]
      dsimp only
      exact ⟨rfl, rfl⟩

/-- Witness for C3: two sends from a fresh manager get ids 1 then 2, and
handling the response for id 1 leaves key 2 untouched. -/
theorem C3_correlation_ids_and_isolation_witness :
    List.Pairwise (· < ·)
      (RequestManager.run RequestManager.init
        [.send "store.get" [], .send "store.put" []]).2
    ∧ dictLookup ((RequestManager.init.send "store.get" []).1.handle_message
        [("id", .int 1), ("type", .str "result")]).1.pending 2 =
      dictLookup (RequestManager.init.send "store.get" []).1.pending 2 := by
  refine ⟨(C3_correlation_ids_and_isolation RequestManager.init
    [.send "store.get" [], .send "store.put" []] [] 0).1, ?_⟩
  have h := (C3_correlation_ids_and_isolation
    ((RequestManager.init.send "store.get" []).1) []
    [("id", .int 1), ("type", .str "result")] 1).2.1 (by decide)
  exact h.1 2 (by decide)

theorem handle_message_skip_tuple (st : RequestManager) (msg : Msg)
    (h : msg.get "type" = some (.str "push")
      ∨ msg.get "type" = some (.str "ping")
      ∨ msg.get "type" = some (.str "welcome")
      ∨ msg.get "type" = some (.str "system")) :
    st.handle_message msg = (st, [], false) := by
  unfold RequestManager.handle_message
  dsimp only
  rw [if_pos h]

theorem handle_message_skip_noid (st : RequestManager) (msg : Msg)
    (h : (msg.get "id").bind JVal.asPyInt = none) :
    st.handle_message msg = (st, [], false) := by
  unfold RequestManager.handle_message
  dsimp only
  split
  · rfl
  · rw [h]

theorem handle_message_skip_unknown (st : RequestManager) (msg : Msg)
    (k : Int) (hk : (msg.get "id").bind JVal.asPyInt = some k)
    (hl : dictLookup st.pending k = none) :
    st.handle_message msg = (st, [], false) := by
  unfold RequestManager.handle_message
  dsimp only
  split
  · rfl
  · rw [hk]
    dsimp only
    simp only [hl]

theorem handle_message_consumed (st : RequestManager) (msg : Msg)
    (k : Int) (p : PendingRequest)
    (htuple : ¬(msg.get "type" = some (.str "push")
      ∨ msg.get "type" = some (.str "ping")
      ∨ msg.get "type" = some (.str "welcome")
      ∨ msg.get "type" = some (.str "system")))
    (hk : (msg.get "id").bind JVal.asPyInt = some k)
    (hl : dictLookup st.pending k = some p) :
    st.handle_message msg =
      ({ st with pending := dictRemove st.pending k },
       [.timerCancel k, .settle k (settlementOf msg)], true) := by
  unfold RequestManager.handle_message
  dsimp only
  rw [if_neg htuple, hk]
  dsimp only
  simp only [hl]

/-- C4: handle_message returns False leaving the table untouched for a
message whose type is push, ping, welcome or system, one with no
(Python) integer id, or one whose id is not a pending key; otherwise it
cancels the entry timer, removes the entry and settles it — with the
data field for type result, with a structured error carrying the
server-supplied code, message and details for type error, and with an
unexpected-response-type error for any other type — and it returns True
exactly when it consumed the message. -/
theorem C4_handle_message_spec (st : RequestManager) (msg : Msg) :
    ((msg.get "type" = some (.str "push")
        ∨ msg.get "type" = some (.str "ping")
        ∨ msg.get "type" = some (.str "welcome")
        ∨ msg.get "type" = some (.str "system")) →
      st.handle_message msg = (st, [], false))
    ∧ ((msg.get "id").bind JVal.asPyInt = none →
      st.handle_message msg = (st, [], false))
    ∧ (∀ k, (msg.get "id").bind JVal.asPyInt = some k →
        dictLookup st.pending k = none →
        st.handle_message msg = (st, [], false))
    ∧ (∀ k p, (msg.get "id").bind JVal.asPyInt = some k →
        dictLookup st.pending k = some p →
        msg.get "type" = some (.str "result") →
        st.handle_message msg =
          ({ st with pending := dictRemove st.pending k },
           [.timerCancel k,
            .settle k (.result ((msg.get "data").getD .null))], true))
    ∧ (∀ k p, (msg.get "id").bind JVal.asPyInt = some k →
        dictLookup st.pending k = some p →
        msg.get "type" = some (.str "error") →
        st.handle_message msg =
          ({ st with pending := dictRemove st.pending k },
           [.timerCancel k,
            .settle k (.serverError ((msg.get "code").getD (.str "UNKNOWN"))
              ((msg.get "message").getD (.str "Unknown server error"))
              ((msg.get "details").getD .null))], true))
    ∧ (∀ k p, (msg.get "id").bind JVal.asPyInt = some k →
        dictLookup st.pending k = some p →
        ¬(msg.get "type" = some (.str "push")
          ∨ msg.get "type" = some (.str "ping")
          ∨ msg.get "type" = some (.str "welcome")
          ∨ msg.get "type" = some (.str "system")) →
        msg.get "type" ≠ some (.str "result") →
        msg.get "type" ≠ some (.str "error") →
        st.handle_message msg =
          ({ st with pending := dictRemove st.pending k },
           [.timerCancel k,
            .settle k (.unexpectedType (msg.get "type"))], true))
    ∧ ((st.handle_message msg).2.2 = true ↔
        (¬(msg.get "type" = some (.str "push")
            ∨ msg.get "type" = some (.str "ping")
            ∨ msg.get "type" = some (.str "welcome")
            ∨ msg.get "type" = some (.str "system"))
          ∧ ∃ k p, (msg.get "id").bind JVal.asPyInt = some k
              ∧ dictLookup st.pending k = some p)) := by
  refine ⟨handle_message_skip_tuple st msg,
    handle_message_skip_noid st msg,
    fun k => handle_message_skip_unknown st msg k, ?_, ?_, ?_, ?_⟩
  · intro k p hk hl htype
    have htuple : ¬(msg.get "type" = some (.str "push")
        ∨ msg.get "type" = some (.str "ping")
        ∨ msg.get "type" = some (.str "welcome")
        ∨ msg.get "type" = some (.str "system")) := by
      rw [htype]; decide
    rw [handle_message_consumed st msg k p htuple hk hl]
    unfold settlementOf
    rw [if_pos htype]
  · intro k p hk hl htype
    have htuple : ¬(msg.get "type" = some (.str "push")
        ∨ msg.get "type" = some (.str "ping")
        ∨ msg.get "type" = some (.str "welcome")
        ∨ msg.get "type" = some (.str "system")) := by
      rw [htype]; decide
    rw [handle_message_consumed st msg k p htuple hk hl]
    unfold settlementOf
    rw [if_neg (by rw [htype]; decide), if_pos htype]
  · intro k p hk hl htuple hres herr
    rw [handle_message_consumed st msg k p htuple hk hl]
    unfold settlementOf
    rw [if_neg hres, if_neg herr]
  · constructor
    · intro h
      by_cases htuple : (msg.get "type" = some (.str "push")
          ∨ msg.get "type" = some (.str "ping")
          ∨ msg.get "type" = some (.str "welcome")
          ∨ msg.get "type" = some (.str "system"))
      · rw [handle_message_skip_tuple st msg htuple] at h
        simp at h
      · rcases hid : (msg.get "id").bind JVal.asPyInt with _ | k
        · rw [handle_message_skip_noid st msg hid] at h
          simp at h
        · rcases hl : dictLookup st.pending k with _ | p
          · rw [handle_message_skip_unknown st msg k hid hl] at h
            simp at h
          · exact ⟨htuple, k, p, rfl, hl⟩
    · rintro ⟨htuple, k, p, hid, hl⟩
      rw [handle_message_consumed st msg k p htuple hid hl]

/-- Witness for C4: an error response for the pending id 1 is consumed
and settles it with the structured server error. -/
theorem C4_handle_message_spec_witness :
    (RequestManager.init.send "store.get" []).1.handle_message
      [("id", .int 1), ("type", .str "error"), ("code", .str "NOT_FOUND"),
       ("message", .str "Bucket not found")] =
      (⟨[], 2⟩,
       [.timerCancel 1,
        .settle 1 (.serverError (.str "NOT_FOUND") (.str "Bucket not found")
          .null)], true) := by
  have h := (C4_handle_message_spec (RequestManager.init.send "store.get" []).1
    [("id", .int 1), ("type", .str "error"), ("code", .str "NOT_FOUND"),
     ("message", .str "Bucket not found")]).2.2.2.2.1 1 ⟨"store.get", false⟩
    (by decide) (by decide) (by decide)
  rw [h]
  decide

theorem binding_unique_of_nodup {κ α : Type} [DecidableEq κ]
    (l : PyDict κ α) (k : κ) (a b : α) (hnd : (dictKeys l).Nodup)
    (ha : (k, a) ∈ l) (hb : (k, b) ∈ l) : a = b := by
  have h1 := dictLookup_eq_some_of_mem_of_nodup l k a hnd ha
  have h2 := dictLookup_eq_some_of_mem_of_nodup l k b hnd hb
  rw [h1] at h2
  exact Option.some.inj h2

/-- The per-entry effect block of reject_all. -/
def rejectBlock (e : Nat) (kv : Int × PendingRequest) : List RMEffect :=
  RMEffect.timerCancel kv.1 ::
    (if kv.2.futureDone then [] else [RMEffect.settle kv.1 (.rejected e)])

theorem reject_all_effects (st : RequestManager) (e : Nat) :
    (st.reject_all e).2 = st.pending.flatMap (rejectBlock e) := rfl


theorem countP_reject_effs (l : PyDict Int PendingRequest) (e : Nat)
    (k : Int) (p : PendingRequest) (hnd : (dictKeys l).Nodup)
    (hm : (k, p) ∈ l) (hdone : p.futureDone = false) :
    (l.flatMap (rejectBlock e)).countP
      (fun x => match x with
        | .settle j _ => decide (j = k)
        | _ => false) = 1 := by
  induction l with
  | nil => simp at hm
  | cons hd rest ih =>
    obtain ⟨k0, p0⟩ := hd
    have hndc := List.nodup_cons.mp (by rwa [dictKeys_cons] at hnd)
    rw [List.flatMap_cons, List.countP_append]
    rcases List.mem_cons.mp hm with h | h
    · obtain ⟨hk, hp⟩ : k = k0 ∧ p = p0 := Prod.mk.injEq .. ▸ h
      subst hk
      subst hp
      have hrest : (rest.flatMap (rejectBlock e)).countP
          (fun x => match x with
            | .settle j _ => decide (j = k)
            | _ => false) = 0 := by
        rw [List.countP_eq_zero]
        intro x hx
        obtain ⟨kv, hkv, hxkv⟩ := List.mem_flatMap.mp hx
        rcases List.mem_cons.mp hxkv with hx1 | hx1
        · subst hx1; simp
        · have hx2 : x = RMEffect.settle kv.1 (.rejected e) := by
            rcases hfd : kv.2.futureDone with _ | _ <;> rw [hfd] at hx1
            · simpa using hx1
            · simp at hx1
          subst hx2
          have hk1 : kv.1 ≠ k := by
            intro hh
            exact hndc.1 (hh ▸ List.mem_map_of_mem Prod.fst hkv)
          simp [hk1]
      rw [hrest, rejectBlock, hdone]
      simp
    · have hk0 : k0 ≠ k := by
        intro hh
        exact hndc.1 (hh ▸ List.mem_map_of_mem Prod.fst h)
      have hhead : (rejectBlock e (k0, p0)).countP
          (fun x => match x with
            | .settle j _ => decide (j = k)
            | _ => false) = 0 := by
        rcases hfd : p0.futureDone with _ | _ <;>
          simp [rejectBlock, hfd, hk0]
      rw [hhead, ih hndc.2 h]

/-- C9: reject_all empties the pending table, cancels the timer of every
pending entry, and fails every still-unsettled entry with the given
error exactly once; entries whose future is already done are not settled
again, and every settlement it performs is a rejection with that error
on an entry that was pending and unsettled. -/
theorem C9_reject_all_spec (st : RequestManager) (e : Nat)
    (hnd : (dictKeys st.pending).Nodup) :
    (st.reject_all e).1.pending = []
    ∧ (∀ k p, (k, p) ∈ st.pending →
        RMEffect.timerCancel k ∈ (st.reject_all e).2)
    ∧ (∀ k p, (k, p) ∈ st.pending → p.futureDone = false →
        RMEffect.settle k (.rejected e) ∈ (st.reject_all e).2
        ∧ (st.reject_all e).2.countP
            (fun x => match x with
              | .settle j _ => decide (j = k)
              | _ => false) = 1)
    ∧ (∀ k p, (k, p) ∈ st.pending → p.futureDone = true →
        ∀ s, RMEffect.settle k s ∉ (st.reject_all e).2)
    ∧ (∀ j s, RMEffect.settle j s ∈ (st.reject_all e).2 →
        s = .rejected e
        ∧ ∃ p, (j, p) ∈ st.pending ∧ p.futureDone = false) := by
  refine ⟨rfl, ?_, ?_, ?_, ?_⟩
  · intro k p hm
    rw [reject_all_effects]
    exact List.mem_flatMap.mpr ⟨(k, p), hm, List.mem_cons_self _ _⟩
  · intro k p hm hdone
    constructor
    · rw [reject_all_effects]
      refine List.mem_flatMap.mpr ⟨(k, p), hm, ?_⟩
      rw [rejectBlock, hdone]
      simp
    · rw [reject_all_effects]
      exact countP_reject_effs st.pending e k p hnd hm hdone
  · intro k p hm hdone s hs
    rw [reject_all_effects] at hs
    obtain ⟨kv, hkv, hxkv⟩ := List.mem_flatMap.mp hs
    rcases List.mem_cons.mp hxkv with hx1 | hx1
    · simp at hx1
    · rcases hfd : kv.2.futureDone with _ | _ <;> rw [hfd] at hx1
      · simp at hx1
        obtain ⟨hk1, _⟩ := hx1
        have hpeq : kv.2 = p := by
          have hkv2 : (k, kv.2) ∈ st.pending := by
            have : kv = (k, kv.2) := by rw [hk1]
            rwa [← this]
          exact binding_unique_of_nodup st.pending k kv.2 p hnd hkv2 hm
        rw [hpeq] at hfd
        rw [hfd] at hdone
        exact Bool.false_ne_true hdone
      · simp at hx1
  · intro j s hs
    rw [reject_all_effects] at hs
    obtain ⟨kv, hkv, hxkv⟩ := List.mem_flatMap.mp hs
    rcases List.mem_cons.mp hxkv with hx1 | hx1
    · simp at hx1
    · rcases hfd : kv.2.futureDone with _ | _ <;> rw [hfd] at hx1
      · simp at hx1
        obtain ⟨hk1, hs1⟩ := hx1
        refine ⟨hs1, kv.2, ?_, hfd⟩
        have : kv = (j, kv.2) := by rw [hk1]
        rwa [← this]
      · simp at hx1

/-- Witness for C9 at a two-entry table with one already-done future. -/
theorem C9_reject_all_spec_witness :
    (RequestManager.reject_all ⟨[(1, ⟨"store.get", false⟩),
        (2, ⟨"store.put", true⟩)], 3⟩ 5).1.pending = []
    ∧ RMEffect.settle 1 (.rejected 5) ∈
        (RequestManager.reject_all ⟨[(1, ⟨"store.get", false⟩),
          (2, ⟨"store.put", true⟩)], 3⟩ 5).2
    ∧ ∀ s, RMEffect.settle 2 s ∉
        (RequestManager.reject_all ⟨[(1, ⟨"store.get", false⟩),
          (2, ⟨"store.put", true⟩)], 3⟩ 5).2 := by
  have h := C9_reject_all_spec ⟨[(1, ⟨"store.get", false⟩),
    (2, ⟨"store.put", true⟩)], 3⟩ 5 (by decide)
  exact ⟨h.1, (h.2.2.1 1 ⟨"store.get", false⟩ (by decide) rfl).1,
    h.2.2.2.1 2 ⟨"store.put", true⟩ (by decide) rfl⟩

theorem foldl_dictInsert_lookup {κ α : Type} [DecidableEq κ]
    (payload : PyDict κ α) (base : PyDict κ α) (key : κ)
    (hnd : (dictKeys payload).Nodup) :
    dictLookup (payload.foldl (fun m kv => dictInsert m kv.1 kv.2) base)
        key =
      (dictLookup payload key).or (dictLookup base key) := by
  induction payload generalizing base with
  | nil => simp [dictLookup]
  | cons hd rest ih =>
    obtain ⟨k0, v0⟩ := hd
    have hndc := List.nodup_cons.mp (by rwa [dictKeys_cons] at hnd)
    rw [List.foldl_cons, ih (dictInsert base k0 v0) hndc.2]
    by_cases hk : k0 = key
    · subst hk
      have hnone : dictLookup rest k0 = none :=
        dictLookup_eq_none_of_not_mem_keys rest k0 hndc.1
      rw [hnone, dictLookup_insert, if_pos rfl]
      simp [dictLookup]
    · rcases hr : dictLookup rest key with _ | v <;>
        simp [dictLookup_insert, dictLookup, hk, hr]

/-- C10: send builds the envelope as an id and type pair and then merges
the payload fields on top, so a payload that itself contains an id or
type key silently overwrites the allocated correlation id or the message
type in the serialized wire message; send performs no check against this
collision and hands exactly this envelope to the transport. When the
payload has no such key, the allocated id and the given type survive. -/
theorem C10_send_envelope_payload_overrides (st : RequestManager)
    (msg_type : String) (payload : Msg)
    (hnd : (dictKeys payload).Nodup) :
    ((st.send msg_type payload).2.1 =
        [.wireSend (buildWireMsg st.next_id msg_type payload)]
      ∧ (st.send msg_type payload).2.2 = st.next_id)
    ∧ (∀ v, dictLookup payload "id" = some v →
        Msg.get (buildWireMsg st.next_id msg_type payload) "id" = some v)
    ∧ (∀ w, dictLookup payload "type" = some w →
        Msg.get (buildWireMsg st.next_id msg_type payload) "type" = some w)
    ∧ (dictLookup payload "id" = none →
        Msg.get (buildWireMsg st.next_id msg_type payload) "id" =
          some (.int st.next_id))
    ∧ (dictLookup payload "type" = none →
        Msg.get (buildWireMsg st.next_id msg_type payload) "type" =
          some (.str msg_type)) := by
  have hbm : ∀ key, Msg.get (buildWireMsg st.next_id msg_type payload) key =
      (dictLookup payload key).or (dictLookup
        ([("id", .int st.next_id), ("type", .str msg_type)] : Msg) key) := by
    intro key
    unfold buildWireMsg Msg.get
    rcases hpe : payload.isEmpty with _ | _
    · rw [if_neg (by simp [hpe])]
      exact foldl_dictInsert_lookup payload
        ([("id", .int st.next_id), ("type", .str msg_type)] : Msg) key hnd
    · rw [if_pos (by simp [hpe])]
      have : payload = [] := List.isEmpty_iff.mp hpe
      subst this
      simp [dictLookup]
  refine ⟨⟨rfl, rfl⟩, ?_, ?_, ?_, ?_⟩
  · intro v hv
    rw [hbm "id", hv]
    rfl
  · intro w hw
    rw [hbm "type", hw]
    rfl
  · intro hv
    rw [hbm "id", hv]
    rfl
  · intro hw
    rw [hbm "type", hw]
    rfl

/-- Witness for C10: a payload carrying id 999 overwrites the allocated
correlation id 1 in the serialized envelope. -/
theorem C10_send_envelope_payload_overrides_witness :
    Msg.get (buildWireMsg RequestManager.init.next_id "store.get"
      [("id", .int 999)]) "id" = some (.int 999) :=
  (C10_send_envelope_payload_overrides RequestManager.init "store.get"
    [("id", .int 999)] (by decide)).2.1 (.int 999) (by decide)

/- ══════════════ client.py : NoexClient orchestrator ══════════════ -/

/-- ConnectionState from config.py. -/
inductive ConnectionState where
  | disconnected
  | connecting
  | connected
  | reconnecting
deriving DecidableEq

/-- WelcomeInfo from config.py. -/
structure WelcomeInfo where
  version : String
  server_time : Int
  requires_auth : Bool
deriving DecidableEq

/-- Events emitted through _emit_event, with the payloads the claims
observe (the error event is identified by its message text). -/
inductive ClientEvent where
  | connected
  | welcome (w : WelcomeInfo)
  | disconnected (reason : String)
  | reconnecting (attempt : Nat)
  | reconnected
  | error (message : String)
  | session_revoked (reason : String)
deriving DecidableEq

/-- The orchestrator fields that drive connect, transport-close handling
and the reconnect loop: the state field, the intentional-disconnect
flag, the reconnect-loop-running flag, and whether a reconnect strategy
is configured (reconnect not False). -/
structure ClientState where
  state : ConnectionState
  intentional_disconnect : Bool
  reconnecting_flag : Bool
  has_reconnect_strategy : Bool
deriving DecidableEq

/-- The _on_transport_close callback from client.py, lines 187-202.
Returns the updated state, the events emitted, whether reject_all ran
with the connection-lost error, and whether a reconnect-loop task was
spawned. The transport passes the close code and reason; the source
consults only the reason (for the disconnected event) and ignores the
code entirely. -/
def NoexClient.on_transport_close (s : ClientState) (_code : Int)
    (reason : String) : ClientState × List ClientEvent × Bool × Bool :=
  let rejected := !s.intentional_disconnect
  if !s.intentional_disconnect && s.has_reconnect_strategy
      && !s.reconnecting_flag then
    ({ s with reconnecting_flag := true }, [], rejected, true)
  else if !s.reconnecting_flag then
    ({ s with state := .disconnected }, [.disconnected reason], rejected,
     false)
  else
    (s, [], rejected, false)

/-- The prefix of _handle_reconnect up to its first suspension point:
set state to reconnecting, then for attempt 0 either stop right away
(intentional disconnect: loop body never runs, state ends disconnected),
give up when get_delay returns none (emitting the max-attempts
disconnected and error events), or emit reconnecting 1 and go to sleep. -/
def NoexClient.handle_reconnect_first (s : ClientState)
    (strategy : ReconnectStrategy) (r : ℚ) :
    ClientState × List ClientEvent :=
  let s1 := { s with state := ConnectionState.reconnecting }
  if s1.intentional_disconnect then
    ({ s1 with state := .disconnected, reconnecting_flag := false }, [])
  else
    match strategy.get_delay 0 r with
    | none =>
        ({ s1 with state := .disconnected, reconnecting_flag := false },
         [.disconnected "Max reconnect attempts reached",
          .error "Max reconnect attempts reached"])
    | some _ => (s1, [.reconnecting 1])

/-- The strategy built from the unit-test options
ReconnectOptions(initial_delay_ms=50, max_delay_ms=100, jitter_ms=0,
max_retries=5). -/
def fastReconnectStrategy : ReconnectStrategy :=
  ReconnectStrategy.ofOptions
    { max_retries := ((5 : ℚ) : WithTop ℚ)
      initial_delay_ms := 50
      max_delay_ms := 100
      backoff_multiplier := 2
      jitter_ms := 0 }

/-- C1 evaluated at the failing input: with reconnect enabled and no
intentional disconnect, a transport close with the non-retryable code
4002 and reason session_revoked makes _on_transport_close spawn the
reconnect loop and emit no event at all (in particular no disconnected
event carrying the reason), and the spawned loop then emits
reconnecting 1 — the close code is never consulted, so the claimed
suppression does not happen. -/
theorem C1_non_retryable_close_code_bug :
    (NoexClient.on_transport_close
      ⟨.connected, false, false, true⟩ 4002 "session_revoked").2.2.2 = true
    ∧ (NoexClient.on_transport_close
      ⟨.connected, false, false, true⟩ 4002 "session_revoked").2.1 = []
    ∧ (NoexClient.handle_reconnect_first
        (NoexClient.on_transport_close
          ⟨.connected, false, false, true⟩ 4002 "session_revoked").1
        fastReconnectStrategy 0).2 = [.reconnecting 1]
    ∧ (∀ code : Int, ∀ reason : String,
        NoexClient.on_transport_close
          ⟨.connected, false, false, true⟩ code reason =
        NoexClient.on_transport_close
          ⟨.connected, false, false, true⟩ 1000 reason) := by
  have hdelay : fastReconnectStrategy.get_delay 0 0 = some 50 := by
    unfold fastReconnectStrategy ReconnectStrategy.get_delay
      ReconnectStrategy.ofOptions
    rw [if_neg]
    · norm_num
    · rw [WithTop.coe_le_coe]
      norm_num
  refine ⟨rfl, rfl, ?_, fun code reason => rfl⟩
  unfold NoexClient.handle_reconnect_first
  rw [show (NoexClient.on_transport_close
    ⟨.connected, false, false, true⟩ 4002 "session_revoked").1 =
    ⟨.connected, false, true, true⟩ from rfl]
  dsimp only
  rw [hdelay]
  simp

/-- The connect() coroutine from client.py, parameterized by the outcome
of the awaited _perform_connect (physical connect plus welcome
handshake) and of the awaited _auto_login, which is only consulted when
the welcome requires auth. Exceptions are identified by tags. Returns
the state afterwards, the return-or-raise outcome, and the events
emitted. Only _perform_connect is inside the try/except that resets the
state; _auto_login is awaited after the state was already set to
connected, outside any try. -/
def NoexClient.connect (s : ClientState)
    (perform : Except Nat WelcomeInfo) (autoLogin : Except Nat Unit) :
    ClientState × Except Nat WelcomeInfo × List ClientEvent :=
  let s1 := { s with
    intentional_disconnect := false
    state := ConnectionState.connecting }
  match perform with
  | .error err => ({ s1 with state := .disconnected }, .error err, [])
  | .ok w =>
      let s2 := { s1 with state := ConnectionState.connected }
      if w.requires_auth then
        match autoLogin with
        | .error err => (s2, .error err, [])
        | .ok _ => (s2, .ok w, [.connected, .welcome w])
      else (s2, .ok w, [.connected, .welcome w])

/-- C2 counterexample: when the welcome requires auth and the auto
re-authentication raises, connect re-raises the error but leaves the
state field at connected — not disconnected as the claim requires for
every failing step of the sequence. -/
theorem C2_connect_counterexample :
    (NoexClient.connect ⟨.disconnected, false, false, true⟩
      (.ok ⟨"1.0.0", 0, true⟩) (.error 7)).2.1 = .error 7
    ∧ (NoexClient.connect ⟨.disconnected, false, false, true⟩
      (.ok ⟨"1.0.0", 0, true⟩) (.error 7)).1.state = .connected
    ∧ ConnectionState.connected ≠ ConnectionState.disconnected :=
  ⟨rfl, rfl, by decide⟩

/-- C2 (amended): a failure of the physical connect or of the welcome
handshake leaves the state at disconnected and re-raises with no event
emitted; a fully successful sequence leaves the state at connected,
returns the welcome and emits connected then welcome in that order; a
failure during auto re-authentication re-raises but leaves the state at
connected. -/
theorem C2_connect_spec (s : ClientState)
    (perform : Except Nat WelcomeInfo) (autoLogin : Except Nat Unit) :
    (∀ err, perform = .error err →
      (NoexClient.connect s perform autoLogin).1.state = .disconnected
      ∧ (NoexClient.connect s perform autoLogin).2.1 = .error err
      ∧ (NoexClient.connect s perform autoLogin).2.2 = [])
    ∧ (∀ w, perform = .ok w →
      (w.requires_auth = true → autoLogin = .ok ()) →
      (NoexClient.connect s perform autoLogin).1.state = .connected
      ∧ (NoexClient.connect s perform autoLogin).2.1 = .ok w
      ∧ (NoexClient.connect s perform autoLogin).2.2 =
          [.connected, .welcome w])
    ∧ (∀ w err, perform = .ok w → w.requires_auth = true →
      autoLogin = .error err →
      (NoexClient.connect s perform autoLogin).1.state = .connected
      ∧ (NoexClient.connect s perform autoLogin).2.1 = .error err
      ∧ (NoexClient.connect s perform autoLogin).2.2 = []) := by
  refine ⟨?_, ?_, ?_⟩
  · intro err hp
    subst hp
    exact ⟨rfl, rfl, rfl⟩
  · intro w hp hauth
    subst hp
    rcases hra : w.requires_auth with _ | _
    · unfold NoexClient.connect
      dsimp only
      rw [hra]
      exact ⟨rfl, rfl, rfl⟩
    · have := hauth hra
      subst this
      unfold NoexClient.connect
      dsimp only
      rw [hra]
      exact ⟨rfl, rfl, rfl⟩
  · intro w err hp hra hauto
    subst hp
    subst hauto
    unfold NoexClient.connect
    dsimp only
    rw [hra]
    exact ⟨rfl, rfl, rfl⟩

/-- Witness for C2 at a concrete successful no-auth connect. -/
theorem C2_connect_spec_witness :
    (NoexClient.connect ⟨.disconnected, false, false, true⟩
      (.ok ⟨"1.0.0", 0, false⟩) (.ok ())).1.state = .connected
    ∧ (NoexClient.connect ⟨.disconnected, false, false, true⟩
      (.ok ⟨"1.0.0", 0, false⟩) (.ok ())).2.2 =
        [.connected, .welcome ⟨"1.0.0", 0, false⟩] := by
  have h := (C2_connect_spec ⟨.disconnected, false, false, true⟩
    (.ok ⟨"1.0.0", 0, false⟩) (.ok ())).2.1 ⟨"1.0.0", 0, false⟩ rfl
    (fun hra => rfl)
  exact ⟨h.1, h.2.2⟩
